import Mathlib

/-!
Shallow embedding of `quickwit-ingest/src/ingest_v2/ingester.rs` (the ingester
node of the Quickwit ingest v2 subsystem), together with theorems about the
behaviour of `init`, `create_shard`, `persist` and `truncate`.

Bytes are modelled as `List Nat`, machine integers as `Nat` (no offset
arithmetic in the source can overflow at the abstraction level used here:
offsets are only ever incremented), and the async methods as pure functions
from an explicit `IngesterState` to a new state plus a result.  Failure of a
Rust `expect`/`panic!` is modelled by a dedicated error value carrying the
panic message.  The outcome of awaiting a replicate future, which depends on
the network and on the follower, is modelled by an explicit environment
function passed to `persist`.
-/

namespace Ingest

abbrev Bytes := List Nat
abbrev QueueId := String
abbrev NodeId := String

/-- `Position` from `quickwit_proto::types`: totally ordered,
`Beginning < Offset n < Eof`. -/
inductive Position where
  | beginning : Position
  | offset : Nat → Position
  | eof : Position
deriving DecidableEq

/-- `impl From<Option<u64>> for Position`: `None` maps to `Beginning`. -/
def Position.fromOptionU64 : Option Nat → Position
  | none => .beginning
  | some n => .offset n

/-- `Position::as_u64`: the offset when the position is an `Offset`. -/
def Position.asU64 : Position → Option Nat
  | .offset n => some n
  | _ => none

/-- Record kinds written to the WAL (`MRecord` in `ingest_v2/mrecord.rs`).
Modelled from the spec: the file `mrecord.rs` is not part of the sources
given, only its literal wire encodings are specified. -/
inductive MRecord where
  | doc : Bytes → MRecord
  | commit : MRecord
  | eof : MRecord
deriving DecidableEq

/-- `MRecord::encode`.  Modelled from the spec: `Doc` is `\0\0 || payload`,
`Commit` is `\0\x01` and `Eof` is `\0\x02`. -/
def MRecord.encode : MRecord → Bytes
  | .doc payload => 0 :: 0 :: payload
  | .commit => [0, 1]
  | .eof => [0, 2]

/-- `is_eof_mrecord`.  Modelled from the spec: a cheap peek at the two header
bytes of the frame. -/
def isEofMRecord (b : Bytes) : Bool :=
  match b with
  | 0 :: 2 :: _ => true
  | _ => false

/-! ### Association lists

`HashMap` fields of `IngesterState` are modelled by association lists with
distinct keys; `alInsert` replaces in place so insertion order is preserved. -/

def alLookup {α : Type} (m : List (String × α)) (k : String) : Option α :=
  match m with
  | [] => none
  | (k', v) :: t => if k' = k then some v else alLookup t k

def alInsert {α : Type} (m : List (String × α)) (k : String) (v : α) :
    List (String × α) :=
  match m with
  | [] => [(k, v)]
  | (k', v') :: t => if k' = k then (k, v) :: t else (k', v') :: alInsert t k v

def alRemove {α : Type} (m : List (String × α)) (k : String) :
    List (String × α) :=
  match m with
  | [] => []
  | (k', v') :: t => if k' = k then t else (k', v') :: alRemove t k

def alContains {α : Type} (m : List (String × α)) (k : String) : Bool :=
  (alLookup m k).isSome

def alKeys {α : Type} (m : List (String × α)) : List String :=
  m.map (·.1)

/-! ### The WAL (`mrecordlog::MultiRecordLog`)

Modelled from the spec (the `mrecordlog` crate is an external collaborator):
a queue is a list of `(offset, record)` pairs plus the next offset to assign;
truncation removes a prefix of offsets without resetting the offset counter;
`current_position` is the highest offset ever assigned. -/

structure WalQueue where
  records : List (Nat × Bytes)
  next : Nat
deriving DecidableEq

/-- `current_position(qid)`: highest assigned offset, `none` if nothing was
ever appended. -/
def WalQueue.currentPosition (q : WalQueue) : Option Nat :=
  if q.next = 0 then none else some (q.next - 1)

/-- Append a single record at the tail, assigning offset `q.next`. -/
def WalQueue.appendOne (q : WalQueue) (b : Bytes) : WalQueue :=
  { records := q.records ++ [(q.next, b)], next := q.next + 1 }

/-- Append a sequence of records, returning the offset of the last appended
record (`none` when the sequence is empty). -/
def WalQueue.appendList (q : WalQueue) (bs : List Bytes) :
    WalQueue × Option Nat :=
  (bs.foldl WalQueue.appendOne q,
   if bs.isEmpty then none else some (q.next + bs.length - 1))

/-- `range(qid, from..)`: records at offsets `≥ lo`. -/
def WalQueue.rangeFrom (q : WalQueue) (lo : Nat) : List (Nat × Bytes) :=
  q.records.filter (fun r => lo ≤ r.1)

/-- `truncate(qid, n)` at the queue level: drop records at offsets `≤ n`. -/
def WalQueue.truncateTo (q : WalQueue) (n : Nat) : WalQueue :=
  { records := q.records.filter (fun r => n < r.1), next := q.next }

abbrev Wal := List (QueueId × WalQueue)

/-- `list_queues()`. -/
def Wal.listQueues (w : Wal) : List QueueId := alKeys w

/-- `create_queue(qid)`: error is `CreateQueueError::AlreadyExists`
(I/O errors are environment failures outside this model). -/
def Wal.createQueue (w : Wal) (q : QueueId) : Except Unit Wal :=
  if alContains w q then .error () else .ok (alInsert w q ⟨[], 0⟩)

/-- `delete_queue(qid)`: error is `DeleteQueueError::MissingQueue`. -/
def Wal.deleteQueue (w : Wal) (q : QueueId) : Except Unit Wal :=
  if alContains w q then .ok (alRemove w q) else .error ()

/-- `truncate(qid, n)`: error is `TruncateError::MissingQueue`. -/
def Wal.truncateQueue (w : Wal) (q : QueueId) (n : Nat) : Except Unit Wal :=
  match alLookup w q with
  | some qu => .ok (alInsert w q (qu.truncateTo n))
  | none => .error ()

/-- `append_records(qid, None, records)`: error is a missing queue. -/
def Wal.appendRecords (w : Wal) (q : QueueId) (bs : List Bytes) :
    Except Unit (Wal × Option Nat) :=
  match alLookup w q with
  | some qu =>
    let p := qu.appendList bs
    .ok (alInsert w q p.1, p.2)
  | none => .error ()

/-! ### Shards (`ingest_v2/models.rs`)

Modelled from the spec: a shard carries a role (fixed at creation), a
`ShardState` and a replication position; `SoloShard::default()` is open at
`Beginning`, `PrimaryShard::new(follower)` likewise. -/

inductive ShardState where
  | opened : ShardState
  | closed : ShardState
deriving DecidableEq

inductive IngesterShard where
  | solo : ShardState → Position → IngesterShard
  | primary : NodeId → ShardState → Position → IngesterShard
  | replica : NodeId → ShardState → Position → IngesterShard
deriving DecidableEq

def IngesterShard.replicationPositionInclusive : IngesterShard → Position
  | .solo _ p => p
  | .primary _ _ p => p
  | .replica _ _ p => p

def IngesterShard.isClosed : IngesterShard → Bool
  | .solo s _ => s = .closed
  | .primary _ s _ => s = .closed
  | .replica _ s _ => s = .closed

def IngesterShard.setReplicationPositionInclusive (sh : IngesterShard)
    (p : Position) : IngesterShard :=
  match sh with
  | .solo s _ => .solo s p
  | .primary f s _ => .primary f s p
  | .replica l s _ => .replica l s p

/-! ### Ingester state and configuration -/

/-- `IngesterState`: the WAL handle, the shard table, the leader-side
replication streams (modelled by their next replication seqno) and the
follower-side replication tasks (modelled by their presence). -/
structure IngesterState where
  mrecordlog : Wal
  shards : List (QueueId × IngesterShard)
  replicationStreams : List (NodeId × Nat)
  replicationTasks : List (NodeId × Unit)
deriving DecidableEq

/-- The `Ingester` service object minus its interior-mutable state: node id,
the peer pool (modelled by the set of node ids it can resolve) and the
replication factor. -/
structure Ingester where
  selfNodeId : NodeId
  ingesterPool : List NodeId
  replicationFactor : Nat
deriving DecidableEq

/-- `IngestV2Error` as surfaced by the methods, plus a `panicked` value
modelling a Rust `panic!` / failed `expect`. -/
inductive IngestError where
  | internal : String → IngestError
  | ingesterUnavailable : NodeId → IngestError
  | panicked : String → IngestError
deriving DecidableEq

end Ingest

namespace Ingest

/-! ### Startup recovery (`init` and `append_eof_record_if_necessary`) -/

/-- The `should_append_eof_record` flag of `append_eof_record_if_necessary`:
true when the queue is empty or the last record is not an `Eof` record.
Follows the source: read `current_position`, list `range(current_position..)`
and peek the last record. -/
def shouldAppendEof (q : WalQueue) : Bool :=
  match q.currentPosition with
  | none => true
  | some cp =>
    match (q.rangeFrom cp).getLast? with
    | none => true
    | some r => !isEofMRecord r.2

/-- Queue-level body of `append_eof_record_if_necessary`: append an
`MRecord::Eof` record when required. -/
def appendEofIfNecessary (q : WalQueue) : WalQueue :=
  if shouldAppendEof q then q.appendOne MRecord.eof.encode else q

/-- `append_eof_record_if_necessary(mrecordlog, queue_id)`.  The source
panics when the queue does not exist; `init` only calls it on queues returned
by `list_queues`, so the missing-queue case is modelled as a no-op. -/
def walAppendEofIfNecessary (w : Wal) (qid : QueueId) : Wal :=
  match alLookup w qid with
  | some q => alInsert w qid (appendEofIfNecessary q)
  | none => w

/-- Body of the `for queue_id in queue_ids` loop of `Ingester::init`: seal
the queue with an `Eof` record if necessary and insert a `Solo` shard in
state `Closed` at position `Eof`. -/
def initLoopStep (s : IngesterState) (qid : QueueId) : IngesterState :=
  { s with
    mrecordlog := walAppendEofIfNecessary s.mrecordlog qid,
    shards := alInsert s.shards qid (.solo .closed .eof) }

/-- `Ingester::init`: run `initLoopStep` over every existing queue. -/
def initIngester (st : IngesterState) : IngesterState :=
  (Wal.listQueues st.mrecordlog).foldl initLoopStep st

/-! ### `init_replication_stream` and `create_shard` -/

/-- `Ingester::init_replication_stream`: when a stream to the follower is
already open this is a no-op; otherwise resolve the follower in the ingester
pool (`IngesterUnavailable` when absent) and register a fresh stream handle
with replication seqno 0.  The open handshake with the resolved follower is
assumed to succeed (its failure modes live in the network environment). -/
def initReplicationStream (ing : Ingester) (st : IngesterState)
    (followerId : NodeId) : IngesterState × Except IngestError Unit :=
  if alContains st.replicationStreams followerId then (st, .ok ())
  else if followerId ∈ ing.ingesterPool then
    ({ st with replicationStreams := alInsert st.replicationStreams followerId 0 },
     .ok ())
  else (st, .error (.ingesterUnavailable followerId))

/-- `Ingester::create_shard`: create the WAL queue first (an existing queue
is a broken invariant and panics), then, when a follower id is given, open
the replication stream — its failure propagates with the queue already
created — and finally insert the shard if still absent (`entry.or_insert`). -/
def createShard (ing : Ingester) (st : IngesterState) (queueId : QueueId)
    (followerIdOpt : Option NodeId) : IngesterState × Except IngestError Unit :=
  match Wal.createQueue st.mrecordlog queueId with
  | .error _ => (st, .error (.panicked "queue should not exist"))
  | .ok wal =>
    let st1 : IngesterState := { st with mrecordlog := wal }
    match followerIdOpt with
    | some followerId =>
      match initReplicationStream ing st1 followerId with
      | (st2, .error e) => (st2, .error e)
      | (st2, .ok _) =>
        let shard : IngesterShard := .primary followerId .opened .beginning
        (if alContains st2.shards queueId then st2
         else { st2 with shards := alInsert st2.shards queueId shard },
         .ok ())
    | none =>
      let shard : IngesterShard := .solo .opened .beginning
      (if alContains st1.shards queueId then st1
       else { st1 with shards := alInsert st1.shards queueId shard },
       .ok ())

/-! ### Persist request and response types
(`quickwit_proto::ingest::ingester`) -/

inductive CommitType where
  | auto : CommitType
  | force : CommitType
deriving DecidableEq

structure DocBatch where
  docs : List Bytes
deriving DecidableEq

/-- `queue_id(index_uid, source_id, shard_id)`: an opaque identifier derived
from the three fields. -/
def queueIdOf (indexUid sourceId : String) (shardId : Nat) : QueueId :=
  indexUid ++ "/" ++ sourceId ++ "/" ++ toString shardId

structure PersistSubrequest where
  subrequestId : Nat
  indexUid : String
  sourceId : String
  shardId : Nat
  followerId : Option NodeId
  docBatch : Option DocBatch
deriving DecidableEq

def PersistSubrequest.queueId (s : PersistSubrequest) : QueueId :=
  queueIdOf s.indexUid s.sourceId s.shardId

structure PersistRequest where
  leaderId : NodeId
  commitType : CommitType
  subrequests : List PersistSubrequest
deriving DecidableEq

structure PersistSuccess where
  subrequestId : Nat
  indexUid : String
  sourceId : String
  shardId : Nat
  replicationPositionInclusive : Option Position
deriving DecidableEq

inductive PersistFailureReason where
  | shardClosed : PersistFailureReason
deriving DecidableEq

structure PersistFailure where
  subrequestId : Nat
  indexUid : String
  sourceId : String
  shardId : Nat
  reason : PersistFailureReason
deriving DecidableEq

structure PersistResponse where
  leaderId : String
  successes : List PersistSuccess
  failures : List PersistFailure
deriving DecidableEq

structure ReplicateSubrequest where
  subrequestId : Nat
  indexUid : String
  sourceId : String
  shardId : Nat
  fromPositionExclusive : Option Position
  toPositionInclusive : Option Position
  docBatch : Option DocBatch
deriving DecidableEq

structure ReplicateRequest where
  leaderId : NodeId
  followerId : NodeId
  subrequests : List ReplicateSubrequest
  commitType : CommitType
  replicationSeqno : Nat
deriving DecidableEq

structure ReplicateSuccess where
  subrequestId : Nat
  indexUid : String
  sourceId : String
  shardId : Nat
  replicationPositionInclusive : Option Position
deriving DecidableEq

structure ReplicateResponse where
  successes : List ReplicateSuccess
deriving DecidableEq

/-- The outcome of awaiting one replicate future.  `Except.error` stands for
a broken replication stream (the `Err(_)` arm in `persist`). -/
abbrev ReplicateEnv := NodeId → ReplicateRequest → Except Unit ReplicateResponse

/-- Modelled from the spec: a conforming replication environment.  The
follower-side replication task (`replication.rs`, not among the given
sources) applies each replicate subrequest and acknowledges it with a
`ReplicateSuccess` whose `replication_position_inclusive` is the
subrequest's `to_position_inclusive` (the follower updates the shard's
position to `to_position_inclusive` and acks, spec §4.5.3); thus every
success of a response corresponds to a subrequest of the request and
echoes that subrequest's `to_position_inclusive`. -/
def ReplicateEnvConforming (env : ReplicateEnv) : Prop :=
  ∀ fid req resp, env fid req = .ok resp →
    ∀ rs ∈ resp.successes, ∃ rsub ∈ req.subrequests,
      rsub.subrequestId = rs.subrequestId ∧
      rs.replicationPositionInclusive = rsub.toPositionInclusive



/-! ### `Ingester::persist` -/

/-- Accumulator of the subrequest loop of `persist`: the mutated state, the
`persist_successes` and `persist_failures` vectors, and the
`replicate_subrequests` map grouped by follower (modelled as an association
list in first-insertion order; the iteration order of the Rust `HashMap` is
unspecified). -/
structure PersistLoopAcc where
  st : IngesterState
  successes : List PersistSuccess
  failures : List PersistFailure
  replicateSubrequests : List (NodeId × List ReplicateSubrequest)
deriving DecidableEq

def initialAcc (st : IngesterState) : PersistLoopAcc :=
  { st := st, successes := [], failures := [], replicateSubrequests := [] }

/-- Push a replicate subrequest onto the group of its follower
(`replicate_subrequests.entry(follower_id).or_default().push(..)`). -/
def groupPush (m : List (NodeId × List ReplicateSubrequest)) (k : NodeId)
    (v : ReplicateSubrequest) : List (NodeId × List ReplicateSubrequest) :=
  match alLookup m k with
  | some vs => alInsert m k (vs ++ [v])
  | none => m ++ [(k, [v])]

/-- One iteration of the `for subrequest in persist_request.subrequests` loop
of `persist`.  `Except.error` carries the message of a panic. -/
def persistLoopStep (ing : Ingester) (forceCommit : Bool)
    (acc : PersistLoopAcc) (subrequest : PersistSubrequest) :
    Except String PersistLoopAcc :=
  let queueId := subrequest.queueId
  let ensured : Except String (IngesterState × IngesterShard) :=
    match alLookup acc.st.shards queueId with
    | some shard => .ok (acc.st, shard)
    | none =>
      match createShard ing acc.st queueId subrequest.followerId with
      | (_, .error _) => .error "TODO"
      | (st', .ok _) =>
        match alLookup st'.shards queueId with
        | some shard => .ok (st', shard)
        | none => .error "TODO"
  match ensured with
  | .error msg => .error msg
  | .ok (st, shard) =>
    let fromPositionExclusive := shard.replicationPositionInclusive
    if shard.isClosed then
      .ok { acc with
        st := st,
        failures := acc.failures ++
          [{ subrequestId := subrequest.subrequestId,
             indexUid := subrequest.indexUid,
             sourceId := subrequest.sourceId,
             shardId := subrequest.shardId,
             reason := .shardClosed }] }
    else
      match subrequest.docBatch with
      | none => .error "router should not send empty persist subrequests"
      | some docBatch =>
        let encodedMRecords :=
          (docBatch.docs.map (fun d => MRecord.encode (.doc d))) ++
            (if forceCommit then [MRecord.encode .commit] else [])
        match Wal.appendRecords st.mrecordlog queueId encodedMRecords with
        | .error _ => .error "TODO"
        | .ok (wal, lastOffsetOpt) =>
          let currentPositionInclusive := Position.fromOptionU64 lastOffsetOpt
          match alLookup st.shards queueId with
          | none => .error "primary shard should exist"
          | some shard' =>
            let st' : IngesterState :=
              { st with
                mrecordlog := wal,
                shards := alInsert st.shards queueId
                  (shard'.setReplicationPositionInclusive
                    currentPositionInclusive) }
            match subrequest.followerId with
            | some followerId =>
              .ok { acc with
                st := st',
                replicateSubrequests := groupPush acc.replicateSubrequests
                  followerId
                  { subrequestId := subrequest.subrequestId,
                    indexUid := subrequest.indexUid,
                    sourceId := subrequest.sourceId,
                    shardId := subrequest.shardId,
                    fromPositionExclusive := some fromPositionExclusive,
                    toPositionInclusive := some currentPositionInclusive,
                    docBatch := some docBatch } }
            | none =>
              .ok { acc with
                st := st',
                successes := acc.successes ++
                  [{ subrequestId := subrequest.subrequestId,
                     indexUid := subrequest.indexUid,
                     sourceId := subrequest.sourceId,
                     shardId := subrequest.shardId,
                     replicationPositionInclusive :=
                       some currentPositionInclusive }] }

/-- The whole subrequest loop of `persist`. -/
def runPersistLoop (ing : Ingester) (forceCommit : Bool) :
    PersistLoopAcc → List PersistSubrequest → Except String PersistLoopAcc
  | acc, [] => .ok acc
  | acc, sub :: rest =>
    match persistLoopStep ing forceCommit acc sub with
    | .error msg => .error msg
    | .ok acc' => runPersistLoop ing forceCommit acc' rest

/-- Submission phase of `persist`: for each follower group, look up the
replication stream (a missing stream is a broken invariant and panics),
allocate `next_replication_seqno()` and build the `ReplicateRequest`.  All
submissions happen before the state lock is dropped. -/
def submitReplicateRequests (ing : Ingester) (commitType : CommitType) :
    IngesterState → List (NodeId × List ReplicateSubrequest) →
    Except String (IngesterState × List (NodeId × ReplicateRequest))
  | st, [] => .ok (st, [])
  | st, (followerId, subrequests) :: rest =>
    match alLookup st.replicationStreams followerId with
    | none => .error "replication stream should be initialized"
    | some seqno =>
      let request : ReplicateRequest :=
        { leaderId := ing.selfNodeId,
          followerId := followerId,
          subrequests := subrequests,
          commitType := commitType,
          replicationSeqno := seqno }
      let st' : IngesterState :=
        { st with replicationStreams :=
            alInsert st.replicationStreams followerId (seqno + 1) }
      match submitReplicateRequests ing commitType st' rest with
      | .error msg => .error msg
      | .ok (st'', requests) => .ok (st'', (followerId, request) :: requests)

/-- Merge phase of `persist`: await each replicate future; a failed future is
skipped (`// TODO: Handle replication error`), a successful response has its
successes converted to `PersistSuccess` values and appended. -/
def mergeReplicateResults (env : ReplicateEnv)
    (requests : List (NodeId × ReplicateRequest))
    (successes : List PersistSuccess) : List PersistSuccess :=
  requests.foldl
    (fun acc p =>
      match env p.1 p.2 with
      | .error _ => acc
      | .ok response =>
        acc ++ response.successes.map
          (fun rs =>
            { subrequestId := rs.subrequestId,
              indexUid := rs.indexUid,
              sourceId := rs.sourceId,
              shardId := rs.shardId,
              replicationPositionInclusive :=
                rs.replicationPositionInclusive }))
    successes

/-- Outcome of `persist`: a response with the final state, an
`IngestV2Error` returned to the caller (with the state unchanged at the early
return), or a panic. -/
inductive PersistOutcome where
  | ok : IngesterState → PersistResponse → PersistOutcome
  | err : IngesterState → IngestError → PersistOutcome
  | panicked : String → PersistOutcome
deriving DecidableEq

/-- `Ingester::persist`. -/
def persist (ing : Ingester) (st : IngesterState) (req : PersistRequest)
    (env : ReplicateEnv) : PersistOutcome :=
  if req.leaderId = ing.selfNodeId then
    let forceCommit := req.commitType = CommitType.force
    match runPersistLoop ing forceCommit (initialAcc st) req.subrequests with
    | .error msg => .panicked msg
    | .ok acc =>
      if acc.replicateSubrequests.isEmpty then
        .ok acc.st
          { leaderId := ing.selfNodeId,
            successes := acc.successes,
            failures := acc.failures }
      else
        match submitReplicateRequests ing req.commitType acc.st
            acc.replicateSubrequests with
        | .error msg => .panicked msg
        | .ok (st', requests) =>
          .ok st'
            { leaderId := ing.selfNodeId,
              successes := mergeReplicateResults env requests acc.successes,
              failures := [] }
  else
    .err st (.internal
      ("routing error: expected leader ID `" ++ ing.selfNodeId ++
        "`, got `" ++ req.leaderId ++ "`"))

/-! ### `Ingester::truncate` -/

structure TruncateSubrequest where
  indexUid : String
  sourceId : String
  shardId : Nat
  toPositionInclusive : Option Position
deriving DecidableEq

def TruncateSubrequest.queueId (s : TruncateSubrequest) : QueueId :=
  queueIdOf s.indexUid s.sourceId s.shardId

structure TruncateRequest where
  ingesterId : NodeId
  subrequests : List TruncateSubrequest
deriving DecidableEq

/-- One iteration of the subrequest loop of `truncate`.  An `Offset`
position truncates the queue (`MissingQueue` and I/O errors are logged and
skipped); `Eof` deletes the queue (missing queue tolerated) and removes the
shard from the shard table; anything else is a no-op. -/
def truncateStep (st : IngesterState) (subrequest : TruncateSubrequest) :
    IngesterState :=
  let queueId := subrequest.queueId
  let toPositionInclusive := subrequest.toPositionInclusive.getD .beginning
  match toPositionInclusive.asU64 with
  | some toOffsetInclusive =>
    match Wal.truncateQueue st.mrecordlog queueId toOffsetInclusive with
    | .ok wal => { st with mrecordlog := wal }
    | .error _ => st
  | none =>
    if toPositionInclusive = Position.eof then
      let wal :=
        match Wal.deleteQueue st.mrecordlog queueId with
        | .ok w => w
        | .error _ => st.mrecordlog
      { st with mrecordlog := wal, shards := alRemove st.shards queueId }
    else st

/-- `Ingester::truncate`. -/
def truncate (ing : Ingester) (st : IngesterState) (req : TruncateRequest) :
    IngesterState × Except IngestError Unit :=
  if req.ingesterId = ing.selfNodeId then
    (req.subrequests.foldl truncateStep st, .ok ())
  else
    (st, .error (.internal
      ("routing error: expected ingester `" ++ ing.selfNodeId ++
        "`, got `" ++ req.ingesterId ++ "`")))

end Ingest

namespace Ingest

/-- Offsets assigned to a sequence of records appended starting at `n`. -/
def numberFrom : Nat → List Bytes → List (Nat × Bytes)
  | _, [] => []
  | n, b :: t => (n, b) :: numberFrom (n + 1) t

/-- Well-formedness of a WAL queue as maintained by `mrecordlog`: offsets
are strictly increasing, all below the next offset to assign, and the last
record (when present) carries the highest assigned offset. -/
structure WalQueueWF (q : WalQueue) : Prop where
  sorted : q.records.Pairwise (fun a b => a.1 < b.1)
  bound : ∀ r ∈ q.records, r.1 < q.next
  lastOffset : ∀ r, q.records.getLast? = some r → r.1 + 1 = q.next

/-- A queue whose last record is an `Eof` record. -/
def endsWithEof (q : WalQueue) : Prop :=
  ∃ r, q.records.getLast? = some r ∧ isEofMRecord r.2 = true

/-! ### Association list lemmas -/

theorem alLookup_alInsert_self {α : Type} (m : List (String × α)) (k : String)
    (v : α) : alLookup (alInsert m k v) k = some v := by
  induction m with
  | nil => simp [alInsert, alLookup]
  | cons p t ih =>
    by_cases h : p.1 = k
    · simp [alInsert, alLookup, h]
    · simp [alInsert, alLookup, h, ih]

theorem alLookup_alInsert_ne {α : Type} (m : List (String × α))
    (k k' : String) (v : α) (h : k ≠ k') :
    alLookup (alInsert m k v) k' = alLookup m k' := by
  induction m with
  | nil => simp [alInsert, alLookup, h]
  | cons p t ih =>
    by_cases hp : p.1 = k
    · simp [alInsert, alLookup, hp, h]
    · simp only [alInsert, if_neg hp, alLookup]
      by_cases hp' : p.1 = k'
      · simp [hp']
      · simp [hp', ih]

theorem alInsert_self_eq {α : Type} (m : List (String × α)) (k : String)
    (v : α) (h : alLookup m k = some v) : alInsert m k v = m := by
  induction m with
  | nil => simp [alLookup] at h
  | cons p t ih =>
    by_cases hp : p.1 = k
    · simp only [alLookup, if_pos hp] at h
      cases p with
      | mk k₀ v₀ =>
        simp only at hp
        simp only [Option.some.injEq] at h
        simp [alInsert, hp, h]
    · simp only [alLookup, if_neg hp] at h
      simp [alInsert, hp, ih h]

theorem alRemove_of_lookup_none {α : Type} (m : List (String × α))
    (k : String) (h : alLookup m k = none) : alRemove m k = m := by
  induction m with
  | nil => simp [alRemove]
  | cons p t ih =>
    by_cases hp : p.1 = k
    · simp [alLookup, hp] at h
    · simp only [alLookup, if_neg hp] at h
      simp [alRemove, hp, ih h]

theorem alKeys_alInsert_of_contains {α : Type} (m : List (String × α))
    (k : String) (v : α) (h : (alLookup m k).isSome) :
    alKeys (alInsert m k v) = alKeys m := by
  induction m with
  | nil => simp [alLookup] at h
  | cons p t ih =>
    by_cases hp : p.1 = k
    · simp [alInsert, alKeys, hp]
    · simp only [alLookup, if_neg hp] at h
      simp only [alInsert, if_neg hp, alKeys, List.map_cons]
      have := ih h
      simp only [alKeys] at this
      rw [this]

theorem alLookup_isSome_of_mem_alKeys {α : Type} (m : List (String × α))
    (k : String) (h : k ∈ alKeys m) : (alLookup m k).isSome := by
  induction m with
  | nil => simp [alKeys] at h
  | cons p t ih =>
    by_cases hp : p.1 = k
    · simp [alLookup, hp]
    · simp only [alKeys, List.map_cons, List.mem_cons] at h
      rcases h with h | h
      · exact absurd h.symm hp
      · simpa [alLookup, hp] using ih h

/-! ### C8, C5, C4, C6 -/

/-- C8: `persist` returns the `Internal` routing error and leaves the state
untouched whenever the request's leader id is not the node's own id. -/
theorem persist_routing_error (ing : Ingester) (st : IngesterState)
    (req : PersistRequest) (env : ReplicateEnv)
    (h : req.leaderId ≠ ing.selfNodeId) :
    persist ing st req env = .err st (.internal
      ("routing error: expected leader ID `" ++ ing.selfNodeId ++
        "`, got `" ++ req.leaderId ++ "`")) := by
  simp [persist, h]

theorem persist_routing_error_witness :
    ("other" : NodeId) ≠ ("self" : NodeId) ∧
    persist ⟨"self", [], 1⟩ ⟨[], [], [], []⟩ ⟨"other", .auto, []⟩
        (fun _ _ => .error ()) =
      .err ⟨[], [], [], []⟩ (.internal
        "routing error: expected leader ID `self`, got `other`") :=
  ⟨by decide, persist_routing_error ⟨"self", [], 1⟩ ⟨[], [], [], []⟩
    ⟨"other", .auto, []⟩ (fun _ _ => .error ()) (by decide)⟩

/-- C5: a persist subrequest whose shard exists and is closed only records a
`ShardClosed` failure; the state (WAL, shard table, streams) is unchanged. -/
theorem persist_closed_shard_records_failure (ing : Ingester)
    (forceCommit : Bool) (acc : PersistLoopAcc) (sub : PersistSubrequest)
    (shard : IngesterShard)
    (hshard : alLookup acc.st.shards sub.queueId = some shard)
    (hclosed : shard.isClosed = true) :
    persistLoopStep ing forceCommit acc sub = .ok
      { acc with failures := acc.failures ++
          [{ subrequestId := sub.subrequestId, indexUid := sub.indexUid,
             sourceId := sub.sourceId, shardId := sub.shardId,
             reason := .shardClosed }] } := by
  simp [persistLoopStep, hshard, hclosed]

theorem persist_closed_shard_records_failure_witness :
    alLookup (IngesterState.shards
        ⟨[("i/s/1", ⟨[], 0⟩)], [("i/s/1", .solo .closed .eof)], [], []⟩)
        (PersistSubrequest.queueId ⟨7, "i", "s", 1, none, some ⟨[[1]]⟩⟩) =
      some (.solo .closed .eof) ∧
    persistLoopStep ⟨"self", [], 1⟩ true
        (initialAcc ⟨[("i/s/1", ⟨[], 0⟩)], [("i/s/1", .solo .closed .eof)], [], []⟩)
        ⟨7, "i", "s", 1, none, some ⟨[[1]]⟩⟩ = .ok
      { initialAcc ⟨[("i/s/1", ⟨[], 0⟩)], [("i/s/1", .solo .closed .eof)], [], []⟩
        with failures := [⟨7, "i", "s", 1, .shardClosed⟩] } :=
  ⟨by decide,
    persist_closed_shard_records_failure ⟨"self", [], 1⟩ true
      (initialAcc ⟨[("i/s/1", ⟨[], 0⟩)], [("i/s/1", .solo .closed .eof)], [], []⟩)
      ⟨7, "i", "s", 1, none, some ⟨[[1]]⟩⟩ (.solo .closed .eof)
      (by decide) (by decide)⟩

end Ingest

namespace Ingest

/-- C4 counterexample: with an empty ingester pool, opening the replication
stream fails (`IngesterUnavailable`), yet `create_shard` has already created
the WAL queue, which survives the failure — refuting the claim that the
queue is not created when the stream cannot be opened. -/
theorem create_shard_failed_stream_still_creates_queue :
    createShard ⟨"test-leader", [], 2⟩ ⟨[], [], [], []⟩ "q" (some "test-follower") =
      (⟨[("q", ⟨[], 0⟩)], [], [], []⟩,
        .error (.ingesterUnavailable "test-follower")) ∧
    alLookup (createShard ⟨"test-leader", [], 2⟩ ⟨[], [], [], []⟩ "q"
        (some "test-follower")).1.mrecordlog "q" = some ⟨[], 0⟩ := by
  constructor
  · rfl
  · rfl

/-- C4 amended: `create_shard` creates the WAL queue first and only then
opens the replication stream; when opening the stream fails, the error is
returned but the queue remains created. -/
theorem create_shard_queue_survives_stream_failure (ing : Ingester)
    (st : IngesterState) (qid : QueueId) (fid : NodeId)
    (hq : alLookup st.mrecordlog qid = none)
    (hs : alLookup st.replicationStreams fid = none)
    (hp : fid ∉ ing.ingesterPool) :
    createShard ing st qid (some fid) =
      ({ st with mrecordlog := alInsert st.mrecordlog qid ⟨[], 0⟩ },
        .error (.ingesterUnavailable fid)) := by
  simp [createShard, Wal.createQueue, alContains, hq,
    initReplicationStream, hs, hp]

theorem create_shard_queue_survives_stream_failure_witness :
    alLookup (IngesterState.mrecordlog ⟨[("p", ⟨[], 3⟩)], [], [], []⟩) "q" = none ∧
    alLookup (IngesterState.replicationStreams ⟨[("p", ⟨[], 3⟩)], [], [], []⟩)
      "f" = none ∧
    "f" ∉ Ingester.ingesterPool ⟨"self", ["g"], 2⟩ ∧
    createShard ⟨"self", ["g"], 2⟩ ⟨[("p", ⟨[], 3⟩)], [], [], []⟩ "q" (some "f") =
      (⟨[("p", ⟨[], 3⟩), ("q", ⟨[], 0⟩)], [], [], []⟩,
        .error (.ingesterUnavailable "f")) :=
  ⟨by decide, by decide, by decide,
    create_shard_queue_survives_stream_failure ⟨"self", ["g"], 2⟩
      ⟨[("p", ⟨[], 3⟩)], [], [], []⟩ "q" "f" (by decide) (by decide) (by decide)⟩

/-- C6: effect of one truncate subrequest: an `Offset n` position truncates
the records at offsets `≤ n` out of the queue (missing queue: no-op); `Eof`
deletes the queue from the WAL and removes the shard from the shard table;
`Beginning` changes nothing. -/
theorem truncate_subrequest_effects (st : IngesterState)
    (sub : TruncateSubrequest) :
    (∀ n q, sub.toPositionInclusive = some (.offset n) →
      alLookup st.mrecordlog sub.queueId = some q →
      truncateStep st sub =
        { st with
          mrecordlog :=
            alInsert st.mrecordlog sub.queueId
              (WalQueue.mk (q.records.filter (fun r => n < r.1)) q.next) }) ∧
    (∀ n, sub.toPositionInclusive = some (.offset n) →
      alLookup st.mrecordlog sub.queueId = none →
      truncateStep st sub = st) ∧
    (sub.toPositionInclusive = some .eof →
      truncateStep st sub =
        { st with mrecordlog := alRemove st.mrecordlog sub.queueId,
                  shards := alRemove st.shards sub.queueId }) ∧
    (sub.toPositionInclusive = some .beginning → truncateStep st sub = st) := by
  refine ⟨?_, ?_, ?_, ?_⟩
  · intro n q hpos hq
    simp [truncateStep, hpos, Position.asU64, Wal.truncateQueue, hq,
      WalQueue.truncateTo]
  · intro n hpos hq
    simp [truncateStep, hpos, Position.asU64, Wal.truncateQueue, hq]
  · intro hpos
    simp only [truncateStep, hpos, Option.getD_some, Position.asU64]
    cases hdel : alLookup st.mrecordlog sub.queueId with
    | none =>
      simp [Wal.deleteQueue, alContains, hdel, alRemove_of_lookup_none _ _ hdel]
    | some q =>
      simp [Wal.deleteQueue, alContains, hdel]
  · intro hpos
    simp [truncateStep, hpos, Position.asU64]

theorem truncate_subrequest_effects_witness :
    TruncateSubrequest.toPositionInclusive ⟨"i", "s", 1, some (.offset 0)⟩ =
      some (.offset 0) ∧
    alLookup (IngesterState.mrecordlog
        ⟨[("i/s/1", ⟨[(0, [0, 0, 1]), (1, [0, 0, 2])], 2⟩)],
         [("i/s/1", .solo .opened (.offset 1))], [], []⟩) "i/s/1" =
      some ⟨[(0, [0, 0, 1]), (1, [0, 0, 2])], 2⟩ ∧
    truncateStep
        ⟨[("i/s/1", ⟨[(0, [0, 0, 1]), (1, [0, 0, 2])], 2⟩)],
         [("i/s/1", .solo .opened (.offset 1))], [], []⟩
        ⟨"i", "s", 1, some (.offset 0)⟩ =
      ⟨[("i/s/1", ⟨[(1, [0, 0, 2])], 2⟩)],
       [("i/s/1", .solo .opened (.offset 1))], [], []⟩ ∧
    truncateStep
        ⟨[("i/s/2", ⟨[(0, [0, 0, 3])], 1⟩)],
         [("i/s/2", .solo .opened (.offset 0))], [], []⟩
        ⟨"i", "s", 2, some .eof⟩ = ⟨[], [], [], []⟩ ∧
    truncateStep ⟨[("i/s/3", ⟨[], 0⟩)], [], [], []⟩
        ⟨"i", "s", 3, some .beginning⟩ = ⟨[("i/s/3", ⟨[], 0⟩)], [], [], []⟩ := by
  refine ⟨by decide, by decide, ?_, ?_, ?_⟩
  · have h := (truncate_subrequest_effects
      ⟨[("i/s/1", ⟨[(0, [0, 0, 1]), (1, [0, 0, 2])], 2⟩)],
       [("i/s/1", .solo .opened (.offset 1))], [], []⟩
      ⟨"i", "s", 1, some (.offset 0)⟩).1 0
      ⟨[(0, [0, 0, 1]), (1, [0, 0, 2])], 2⟩ (by decide) (by decide)
    rw [h]; decide
  · have h := (truncate_subrequest_effects
      ⟨[("i/s/2", ⟨[(0, [0, 0, 3])], 1⟩)],
       [("i/s/2", .solo .opened (.offset 0))], [], []⟩
      ⟨"i", "s", 2, some .eof⟩).2.2.1 (by decide)
    rw [h]; decide
  · exact (truncate_subrequest_effects ⟨[("i/s/3", ⟨[], 0⟩)], [], [], []⟩
      ⟨"i", "s", 3, some .beginning⟩).2.2.2 (by decide)

end Ingest

namespace Ingest

/-- Splitting the persist subrequest loop at a list split point. -/
theorem runPersistLoop_append (ing : Ingester) (forceCommit : Bool)
    (l₁ l₂ : List PersistSubrequest) (acc : PersistLoopAcc) :
    runPersistLoop ing forceCommit acc (l₁ ++ l₂) =
      match runPersistLoop ing forceCommit acc l₁ with
      | .ok acc' => runPersistLoop ing forceCommit acc' l₂
      | .error msg => .error msg := by
  induction l₁ generalizing acc with
  | nil => simp [runPersistLoop]
  | cons sub rest ih =>
    simp only [List.cons_append, runPersistLoop]
    cases persistLoopStep ing forceCommit acc sub with
    | error msg => rfl
    | ok acc' => exact ih acc'

/-- C10: a persist subrequest whose shard is open but whose `doc_batch` is
absent makes `persist` panic (the `expect` on `subrequest.doc_batch`) instead
of producing an error response or a per-subrequest failure. -/
theorem persist_panics_on_missing_doc_batch (ing : Ingester)
    (st : IngesterState) (req : PersistRequest) (env : ReplicateEnv)
    (pre post : List PersistSubrequest) (sub : PersistSubrequest)
    (acc : PersistLoopAcc) (shard : IngesterShard)
    (hroute : req.leaderId = ing.selfNodeId)
    (hsubs : req.subrequests = pre ++ sub :: post)
    (hpre : runPersistLoop ing (decide (req.commitType = CommitType.force))
      (initialAcc st) pre = .ok acc)
    (hshard : alLookup acc.st.shards sub.queueId = some shard)
    (hopen : shard.isClosed = false)
    (hdb : sub.docBatch = none) :
    persist ing st req env =
      .panicked "router should not send empty persist subrequests" := by
  have hstep : persistLoopStep ing
      (decide (req.commitType = CommitType.force)) acc sub =
      .error "router should not send empty persist subrequests" := by
    simp [persistLoopStep, hshard, hopen, hdb]
  simp only [persist, hroute, if_pos, hsubs]
  rw [runPersistLoop_append]
  rw [hpre]
  simp only [runPersistLoop, hstep]

theorem persist_panics_on_missing_doc_batch_witness :
    ("self" : String) = ("self" : String) ∧
    [⟨0, "i", "s", 1, none, (none : Option DocBatch)⟩] =
      ([] : List PersistSubrequest) ++
        (⟨0, "i", "s", 1, none, none⟩ : PersistSubrequest) :: [] ∧
    alLookup (IngesterState.shards
        ⟨[("i/s/1", ⟨[], 0⟩)], [("i/s/1", .solo .opened .beginning)], [], []⟩)
        (PersistSubrequest.queueId ⟨0, "i", "s", 1, none, none⟩) =
      some (.solo .opened .beginning) ∧
    persist ⟨"self", [], 1⟩
        ⟨[("i/s/1", ⟨[], 0⟩)], [("i/s/1", .solo .opened .beginning)], [], []⟩
        ⟨"self", .auto, [⟨0, "i", "s", 1, none, none⟩]⟩ (fun _ _ => .error ()) =
      .panicked "router should not send empty persist subrequests" :=
  ⟨rfl, by decide, by decide,
    persist_panics_on_missing_doc_batch ⟨"self", [], 1⟩
      ⟨[("i/s/1", ⟨[], 0⟩)], [("i/s/1", .solo .opened .beginning)], [], []⟩
      ⟨"self", .auto, [⟨0, "i", "s", 1, none, none⟩]⟩ (fun _ _ => .error ())
      [] [] ⟨0, "i", "s", 1, none, none⟩
      (initialAcc ⟨[("i/s/1", ⟨[], 0⟩)],
        [("i/s/1", .solo .opened .beginning)], [], []⟩)
      (.solo .opened .beginning)
      rfl rfl rfl (by decide) (by decide) rfl⟩

/-- C9: whenever the subrequest loop produced at least one replicate
subrequest and `persist` returns a response, that response carries an empty
failures list — failures recorded earlier in the same request (for example
`ShardClosed`) are discarded. -/
theorem persist_with_replication_discards_failures (ing : Ingester)
    (st : IngesterState) (req : PersistRequest) (env : ReplicateEnv)
    (acc : PersistLoopAcc) (st' : IngesterState) (resp : PersistResponse)
    (hroute : req.leaderId = ing.selfNodeId)
    (hloop : runPersistLoop ing (decide (req.commitType = CommitType.force))
      (initialAcc st) req.subrequests = .ok acc)
    (hne : acc.replicateSubrequests ≠ [])
    (hok : persist ing st req env = .ok st' resp) :
    resp.failures = [] := by
  simp only [persist, hroute, if_pos, hloop] at hok
  rw [List.isEmpty_eq_false_iff_exists_mem.mpr] at hok
  · simp only [Bool.false_eq_true, if_false] at hok
    cases hsubmit : submitReplicateRequests ing req.commitType acc.st
        acc.replicateSubrequests with
    | error msg => rw [hsubmit] at hok; cases hok
    | ok p =>
      rw [hsubmit] at hok
      cases hok' : p with
      | mk st'' requests =>
        subst hok'
        injection hok with h₁ h₂
        rw [← h₂]
  · exact List.exists_mem_of_ne_nil _ hne

end Ingest

namespace Ingest

theorem persist_with_replication_discards_failures_witness :
    ("self" : NodeId) = ("self" : NodeId) ∧
    runPersistLoop ⟨"self", ["f"], 2⟩
        (decide ((CommitType.auto : CommitType) = CommitType.force))
        (initialAcc ⟨[("a/s/1", ⟨[], 0⟩)],
          [("a/s/1", .solo .closed .beginning)], [], []⟩)
        [⟨1, "a", "s", 1, none, some ⟨[[1]]⟩⟩,
         ⟨2, "b", "s", 1, some "f", some ⟨[[2]]⟩⟩] = .ok
      { st := ⟨[("a/s/1", ⟨[], 0⟩), ("b/s/1", ⟨[(0, [0, 0, 2])], 1⟩)],
          [("a/s/1", .solo .closed .beginning),
           ("b/s/1", .primary "f" .opened (.offset 0))], [("f", 0)], []⟩,
        successes := [],
        failures := [⟨1, "a", "s", 1, .shardClosed⟩],
        replicateSubrequests :=
          [("f", [⟨2, "b", "s", 1, some .beginning, some (.offset 0),
            some ⟨[[2]]⟩⟩])] } ∧
    ([("f", [(⟨2, "b", "s", 1, some .beginning, some (.offset 0),
        some ⟨[[2]]⟩⟩ : ReplicateSubrequest)])] ≠
      ([] : List (NodeId × List ReplicateSubrequest))) ∧
    PersistResponse.failures ⟨"self", [], []⟩ = [] :=
  ⟨rfl, rfl, by decide,
    persist_with_replication_discards_failures ⟨"self", ["f"], 2⟩
      ⟨[("a/s/1", ⟨[], 0⟩)], [("a/s/1", .solo .closed .beginning)], [], []⟩
      ⟨"self", .auto, [⟨1, "a", "s", 1, none, some ⟨[[1]]⟩⟩,
        ⟨2, "b", "s", 1, some "f", some ⟨[[2]]⟩⟩]⟩
      (fun _ _ => .ok ⟨[]⟩)
      { st := ⟨[("a/s/1", ⟨[], 0⟩), ("b/s/1", ⟨[(0, [0, 0, 2])], 1⟩)],
          [("a/s/1", .solo .closed .beginning),
           ("b/s/1", .primary "f" .opened (.offset 0))], [("f", 0)], []⟩,
        successes := [],
        failures := [⟨1, "a", "s", 1, .shardClosed⟩],
        replicateSubrequests :=
          [("f", [⟨2, "b", "s", 1, some .beginning, some (.offset 0),
            some ⟨[[2]]⟩⟩])] }
      ⟨[("a/s/1", ⟨[], 0⟩), ("b/s/1", ⟨[(0, [0, 0, 2])], 1⟩)],
       [("a/s/1", .solo .closed .beginning),
        ("b/s/1", .primary "f" .opened (.offset 0))], [("f", 1)], []⟩
      ⟨"self", [], []⟩
      rfl rfl (by decide) rfl⟩

end Ingest

namespace Ingest

theorem foldl_appendOne_eq (bs : List Bytes) (q : WalQueue) :
    bs.foldl WalQueue.appendOne q =
      WalQueue.mk (q.records ++ numberFrom q.next bs) (q.next + bs.length) := by
  induction bs generalizing q with
  | nil => simp [numberFrom]
  | cons b t ih =>
    simp only [List.foldl_cons, ih, WalQueue.appendOne, numberFrom,
      List.length_cons, WalQueue.mk.injEq]
    exact ⟨by simp [List.append_assoc], by omega⟩

/-- C1: evaluation of `persist` at a request whose single subrequest targets
a fresh shard with a follower, when the replicate future fails (broken
replication stream).  The code returns a response with an empty failures
list (no `ShardClosed` failure for the subrequest) and keeps both the
replication stream (seqno advanced) and the follower's shard (still open) in
the state, instead of reporting `ShardClosed` and evicting them as the
`// TODO: Handle replication error` comment in the source prescribes. -/
theorem persist_broken_stream_drops_failures_and_keeps_state :
    persist ⟨"test-leader", ["test-follower"], 2⟩ ⟨[], [], [], []⟩
        ⟨"test-leader", .force,
          [⟨0, "test-index:0", "test-source", 1, some "test-follower",
            some ⟨[[10]]⟩⟩]⟩
        (fun _ _ => .error ()) =
      .ok
        ⟨[("test-index:0/test-source/1", ⟨[(0, [0, 0, 10]), (1, [0, 1])], 2⟩)],
         [("test-index:0/test-source/1",
           .primary "test-follower" .opened (.offset 1))],
         [("test-follower", 1)], []⟩
        ⟨"test-leader", [], []⟩ := by
  rfl

theorem initReplicationStream_preserves (ing : Ingester)
    (st : IngesterState) (fid : NodeId) :
    (initReplicationStream ing st fid).1.shards = st.shards ∧
    (initReplicationStream ing st fid).1.mrecordlog = st.mrecordlog := by
  unfold initReplicationStream
  by_cases hs : alContains st.replicationStreams fid
  · simp [hs]
  · by_cases hp : fid ∈ ing.ingesterPool
    · simp [hs, hp]
    · simp [hs, hp]

/-- A successful `create_shard` call without follower for an absent shard
leaves an empty, freshly created WAL queue and an open `Solo` shard at
position `Beginning` under the queue id. -/
theorem createShard_ok_lookups_none (ing : Ingester) (st : IngesterState)
    (qid : QueueId) (st₁ : IngesterState)
    (hshard : alLookup st.shards qid = none)
    (hok : createShard ing st qid none = (st₁, .ok ())) :
    alLookup st₁.mrecordlog qid = some ⟨[], 0⟩ ∧
    alLookup st₁.shards qid =
      some (IngesterShard.solo .opened .beginning) := by
  unfold createShard at hok
  cases hcq : Wal.createQueue st.mrecordlog qid with
  | error e =>
    rw [hcq] at hok
    injection hok with h₁ h₂
    cases h₂
  | ok wal =>
    have hwal : wal = alInsert st.mrecordlog qid ⟨[], 0⟩ := by
      unfold Wal.createQueue at hcq
      split at hcq
      · cases hcq
      · injection hcq with h
        exact h.symm
    have hc : alContains st.shards qid = false := by
      simp [alContains, hshard]
    rw [hcq] at hok
    simp only [hc, Bool.false_eq_true, if_false] at hok
    injection hok with h₁ h₂
    subst h₁
    subst hwal
    exact ⟨alLookup_alInsert_self st.mrecordlog qid ⟨[], 0⟩,
      alLookup_alInsert_self st.shards qid _⟩

/-- A successful `create_shard` call with a follower id for an absent shard
leaves an empty, freshly created WAL queue and an open `Primary` shard at
position `Beginning` under the queue id. -/
theorem createShard_ok_lookups_some (ing : Ingester) (st : IngesterState)
    (qid : QueueId) (f : NodeId) (st₁ : IngesterState)
    (hshard : alLookup st.shards qid = none)
    (hok : createShard ing st qid (some f) = (st₁, .ok ())) :
    alLookup st₁.mrecordlog qid = some ⟨[], 0⟩ ∧
    alLookup st₁.shards qid =
      some (IngesterShard.primary f .opened .beginning) := by
  unfold createShard at hok
  split at hok
  · injection hok with h₁ h₂
    cases h₂
  · rename_i wal hcq
    have hwal : wal = alInsert st.mrecordlog qid ⟨[], 0⟩ := by
      unfold Wal.createQueue at hcq
      split at hcq
      · cases hcq
      · injection hcq with h
        exact h.symm
    have hc : alContains st.shards qid = false := by
      simp [alContains, hshard]
    subst hwal
    split at hok
    · rename_i followerId heq
      injection heq with heq
      subst heq
      simp only [] at hok
      split at hok
      · injection hok with h₁ h₂
        cases h₂
      · rename_i st₂ u hi
        have hpres := initReplicationStream_preserves ing
          { st with mrecordlog := alInsert st.mrecordlog qid ⟨[], 0⟩ } f
        rw [hi] at hpres
        have hsh₂ : st₂.shards = st.shards := hpres.1
        have hml₂ : st₂.mrecordlog = alInsert st.mrecordlog qid ⟨[], 0⟩ :=
          hpres.2
        have hc₂ : alContains st₂.shards qid = false := by
          rw [hsh₂]
          exact hc
        simp only [hc₂, Bool.false_eq_true, if_false] at hok
        injection hok with h₁ h₂
        subst h₁
        refine ⟨?_, alLookup_alInsert_self st₂.shards qid _⟩
        show alLookup st₂.mrecordlog qid = some ⟨[], 0⟩
        rw [hml₂]
        exact alLookup_alInsert_self st.mrecordlog qid ⟨[], 0⟩
    · rename_i heq
      exact Option.noConfusion heq

/-- Unfolding equation for the submission phase on a non-empty group
list. -/
theorem submitReplicateRequests_cons (ing : Ingester) (ct : CommitType)
    (st : IngesterState) (fid : NodeId) (subs : List ReplicateSubrequest)
    (rest : List (NodeId × List ReplicateSubrequest)) :
    submitReplicateRequests ing ct st ((fid, subs) :: rest) =
      match alLookup st.replicationStreams fid with
      | none => .error "replication stream should be initialized"
      | some seqno =>
        match submitReplicateRequests ing ct
            { st with replicationStreams :=
                alInsert st.replicationStreams fid (seqno + 1) } rest with
        | .error msg => .error msg
        | .ok (st'', reqs) =>
          .ok (st'',
            (fid, { leaderId := ing.selfNodeId, followerId := fid,
                    subrequests := subs, commitType := ct,
                    replicationSeqno := seqno }) :: reqs) := rfl

/-- C2: every persist subrequest that yields a `PersistSuccess` appends to
the WAL queue of its shard exactly the encoded documents of its doc batch
in order, followed by exactly one `Commit` record when the commit type is
`Force` and by nothing otherwise, and the reported
`replication_position_inclusive` is the WAL offset of the last appended
record.  Four conjuncts cover all paths of `persist`: (1) the subrequest
loop iteration when the shard pre-exists, for both solo shards (the
`PersistSuccess` carries `Offset(last)` directly) and primary shards (the
generated `ReplicateSubrequest` carries `to_position_inclusive =
Offset(last)`); (2) the same when the shard is created lazily by
`create_shard` within the call (the queue starts empty, so the records land
at offsets `0..`); (3) the submission phase packs each follower group's
replicate subrequests unchanged into its `ReplicateRequest`; (4) under a
conforming replication environment (the follower task echoes
`to_position_inclusive`, spec §4.5.3 — `replication.rs` is not among the
given sources), every `PersistSuccess` produced by the merge phase reports
exactly the `to_position_inclusive` of its replicate subrequest, hence the
offset of the last record appended for that subrequest. -/
theorem persist_subrequest_success_appends_docs_then_commit :
    (∀ (ing : Ingester) (forceCommit : Bool) (acc : PersistLoopAcc)
       (sub : PersistSubrequest) (batch : DocBatch) (shard : IngesterShard)
       (q : WalQueue),
       sub.docBatch = some batch →
       (forceCommit = true ∨ batch.docs ≠ []) →
       alLookup acc.st.shards sub.queueId = some shard →
       shard.isClosed = false →
       alLookup acc.st.mrecordlog sub.queueId = some q →
       persistLoopStep ing forceCommit acc sub = .ok
         { st := { acc.st with
             mrecordlog := alInsert acc.st.mrecordlog sub.queueId
               (WalQueue.mk
                 (q.records ++ numberFrom q.next
                   (batch.docs.map (fun d => MRecord.encode (.doc d)) ++
                     (if forceCommit then [MRecord.encode .commit] else [])))
                 (q.next + batch.docs.length +
                   (if forceCommit then 1 else 0))),
             shards := alInsert acc.st.shards sub.queueId
               (shard.setReplicationPositionInclusive
                 (.offset (q.next + batch.docs.length +
                   (if forceCommit then 1 else 0) - 1))) },
           successes := acc.successes ++
             (match sub.followerId with
              | none =>
                [{ subrequestId := sub.subrequestId,
                   indexUid := sub.indexUid, sourceId := sub.sourceId,
                   shardId := sub.shardId,
                   replicationPositionInclusive :=
                     some (.offset (q.next + batch.docs.length +
                       (if forceCommit then 1 else 0) - 1)) }]
              | some _ => []),
           failures := acc.failures,
           replicateSubrequests :=
             (match sub.followerId with
              | none => acc.replicateSubrequests
              | some followerId =>
                groupPush acc.replicateSubrequests followerId
                  { subrequestId := sub.subrequestId,
                    indexUid := sub.indexUid, sourceId := sub.sourceId,
                    shardId := sub.shardId,
                    fromPositionExclusive :=
                      some shard.replicationPositionInclusive,
                    toPositionInclusive :=
                      some (.offset (q.next + batch.docs.length +
                        (if forceCommit then 1 else 0) - 1)),
                    docBatch := some batch }) }) ∧
    (∀ (ing : Ingester) (forceCommit : Bool) (acc : PersistLoopAcc)
       (sub : PersistSubrequest) (batch : DocBatch) (st₁ : IngesterState),
       sub.docBatch = some batch →
       (forceCommit = true ∨ batch.docs ≠ []) →
       alLookup acc.st.shards sub.queueId = none →
       createShard ing acc.st sub.queueId sub.followerId = (st₁, .ok ()) →
       persistLoopStep ing forceCommit acc sub = .ok
         { st := { st₁ with
             mrecordlog := alInsert st₁.mrecordlog sub.queueId
               (WalQueue.mk
                 (numberFrom 0
                   (batch.docs.map (fun d => MRecord.encode (.doc d)) ++
                     (if forceCommit then [MRecord.encode .commit] else [])))
                 (batch.docs.length + (if forceCommit then 1 else 0))),
             shards := alInsert st₁.shards sub.queueId
               (match sub.followerId with
                | some f => IngesterShard.primary f .opened
                    (.offset (batch.docs.length +
                      (if forceCommit then 1 else 0) - 1))
                | none => IngesterShard.solo .opened
                    (.offset (batch.docs.length +
                      (if forceCommit then 1 else 0) - 1))) },
           successes := acc.successes ++
             (match sub.followerId with
              | none =>
                [{ subrequestId := sub.subrequestId,
                   indexUid := sub.indexUid, sourceId := sub.sourceId,
                   shardId := sub.shardId,
                   replicationPositionInclusive :=
                     some (.offset (batch.docs.length +
                       (if forceCommit then 1 else 0) - 1)) }]
              | some _ => []),
           failures := acc.failures,
           replicateSubrequests :=
             (match sub.followerId with
              | none => acc.replicateSubrequests
              | some followerId =>
                groupPush acc.replicateSubrequests followerId
                  { subrequestId := sub.subrequestId,
                    indexUid := sub.indexUid, sourceId := sub.sourceId,
                    shardId := sub.shardId,
                    fromPositionExclusive := some Position.beginning,
                    toPositionInclusive :=
                      some (.offset (batch.docs.length +
                        (if forceCommit then 1 else 0) - 1)),
                    docBatch := some batch }) }) ∧
    (∀ (ing : Ingester) (ct : CommitType) (st st' : IngesterState)
       (groups : List (NodeId × List ReplicateSubrequest))
       (requests : List (NodeId × ReplicateRequest)),
       submitReplicateRequests ing ct st groups = .ok (st', requests) →
       ∀ p ∈ requests, (p.1, p.2.subrequests) ∈ groups) ∧
    (∀ (env : ReplicateEnv) (requests : List (NodeId × ReplicateRequest))
       (successes₀ : List PersistSuccess) (ps : PersistSuccess),
       ReplicateEnvConforming env →
       ps ∈ mergeReplicateResults env requests successes₀ →
       ps ∈ successes₀ ∨ ∃ fid req rsub, (fid, req) ∈ requests ∧
         rsub ∈ req.subrequests ∧ rsub.subrequestId = ps.subrequestId ∧
         ps.replicationPositionInclusive = rsub.toPositionInclusive) := by
  have hlen : ∀ (forceCommit : Bool) (batch : DocBatch),
      (batch.docs.map (fun d => MRecord.encode (.doc d)) ++
        (if forceCommit then [MRecord.encode .commit] else [])).length =
      batch.docs.length + (if forceCommit then 1 else 0) := by
    intro forceCommit batch
    cases forceCommit <;> simp
  have hnonempty : ∀ (forceCommit : Bool) (batch : DocBatch),
      (forceCommit = true ∨ batch.docs ≠ []) →
      (batch.docs.map (fun d => MRecord.encode (.doc d)) ++
        (if forceCommit then [MRecord.encode .commit] else [])).isEmpty =
        false := by
    intro forceCommit batch hne
    cases forceCommit with
    | true => simp
    | false =>
      rcases hne with h | h
      · cases h
      · cases hd : batch.docs with
        | nil => exact absurd hd h
        | cons a t => simp [hd, List.isEmpty]
  refine ⟨?_, ?_, ?_, ?_⟩
  · intro ing forceCommit acc sub batch shard q hbatch hne hshard hopen hq
    cases hf : sub.followerId with
    | none =>
      simp only [persistLoopStep, hshard, hopen, hbatch, Bool.false_eq_true,
        if_false, Wal.appendRecords, hq, WalQueue.appendList,
        foldl_appendOne_eq, hnonempty forceCommit batch hne,
        hlen forceCommit batch, Position.fromOptionU64, hf]
      rw [Nat.add_assoc]
    | some followerId =>
      simp only [persistLoopStep, hshard, hopen, hbatch, Bool.false_eq_true,
        if_false, Wal.appendRecords, hq, WalQueue.appendList,
        foldl_appendOne_eq, hnonempty forceCommit batch hne,
        hlen forceCommit batch, Position.fromOptionU64, hf]
      simp [Nat.add_assoc]
  · intro ing forceCommit acc sub batch st₁ hbatch hne hnoshard hcreate
    cases hf : sub.followerId with
    | none =>
      rw [hf] at hcreate
      obtain ⟨hw₁, hs₁⟩ := createShard_ok_lookups_none ing acc.st
        sub.queueId st₁ hnoshard hcreate
      simp only [persistLoopStep, hnoshard, hf, hcreate, hs₁, hbatch,
        IngesterShard.isClosed, Bool.false_eq_true, if_false,
        Wal.appendRecords, hw₁, WalQueue.appendList, foldl_appendOne_eq,
        hnonempty forceCommit batch hne, hlen forceCommit batch,
        Position.fromOptionU64, List.nil_append, Nat.zero_add,
        IngesterShard.setReplicationPositionInclusive,
        IngesterShard.replicationPositionInclusive]
      simp
    | some followerId =>
      rw [hf] at hcreate
      obtain ⟨hw₁, hs₁⟩ := createShard_ok_lookups_some ing acc.st
        sub.queueId followerId st₁ hnoshard hcreate
      simp only [persistLoopStep, hnoshard, hf, hcreate, hs₁, hbatch,
        IngesterShard.isClosed, Bool.false_eq_true, if_false,
        Wal.appendRecords, hw₁, WalQueue.appendList, foldl_appendOne_eq,
        hnonempty forceCommit batch hne, hlen forceCommit batch,
        Position.fromOptionU64, List.nil_append, Nat.zero_add,
        IngesterShard.setReplicationPositionInclusive,
        IngesterShard.replicationPositionInclusive]
      simp
  · intro ing ct st st' groups requests hsubmit p hp
    induction groups generalizing st requests with
    | nil =>
      rw [show submitReplicateRequests ing ct st [] = .ok (st, []) from rfl]
        at hsubmit
      injection hsubmit with h
      injection h with h₁ h₂
      subst h₂
      cases hp
    | cons g rest ih =>
      cases g with
      | mk fid subs =>
        rw [submitReplicateRequests_cons] at hsubmit
        split at hsubmit
        · cases hsubmit
        · rename_i seqno hstream
          split at hsubmit
          · cases hsubmit
          · rename_i st'' reqs hrec
            injection hsubmit with h
            injection h with h₁ h₂
            subst h₁
            subst h₂
            rcases List.mem_cons.mp hp with h | h
            · subst h
              exact List.mem_cons_self _ _
            · exact List.mem_cons_of_mem _ (ih _ reqs hrec h)
  · intro env requests successes₀ ps hconf hmem
    induction requests generalizing successes₀ with
    | nil => exact Or.inl hmem
    | cons g rest ih =>
      cases g with
      | mk fid req =>
        rw [show mergeReplicateResults env ((fid, req) :: rest) successes₀ =
          mergeReplicateResults env rest
            (match env fid req with
             | .error _ => successes₀
             | .ok response => successes₀ ++ response.successes.map
                 (fun rs =>
                   { subrequestId := rs.subrequestId,
                     indexUid := rs.indexUid, sourceId := rs.sourceId,
                     shardId := rs.shardId,
                     replicationPositionInclusive :=
                       rs.replicationPositionInclusive })) from rfl] at hmem
        cases henv : env fid req with
        | error e =>
          rw [henv] at hmem
          rcases ih _ hmem with h | ⟨fid', req', rsub, hreq, hrs, hid, hpos⟩
          · exact Or.inl h
          · exact Or.inr ⟨fid', req', rsub,
              List.mem_cons_of_mem _ hreq, hrs, hid, hpos⟩
        | ok response =>
          rw [henv] at hmem
          rcases ih _ hmem with h | ⟨fid', req', rsub, hreq, hrs, hid, hpos⟩
          · rcases List.mem_append.mp h with h' | h'
            · exact Or.inl h'
            · rcases List.mem_map.mp h' with ⟨rs, hrsmem, hps⟩
              obtain ⟨rsub, hrsub, hid, hpos⟩ :=
                hconf fid req response henv rs hrsmem
              refine Or.inr ⟨fid, req, rsub, List.mem_cons_self _ _, hrsub,
                ?_, ?_⟩
              · rw [hid, ← hps]
              · rw [← hps, hpos]
          · exact Or.inr ⟨fid', req', rsub,
              List.mem_cons_of_mem _ hreq, hrs, hid, hpos⟩

theorem persist_subrequest_success_appends_docs_then_commit_witness :
    persistLoopStep ⟨"self", [], 1⟩ true
        (initialAcc ⟨[("i/s/1", ⟨[(0, [0, 0, 9])], 1⟩)],
          [("i/s/1", .solo .opened (.offset 0))], [], []⟩)
        ⟨3, "i", "s", 1, none, some ⟨[[7], [8]]⟩⟩ = .ok
      { st := ⟨[("i/s/1",
            ⟨[(0, [0, 0, 9]), (1, [0, 0, 7]), (2, [0, 0, 8]), (3, [0, 1])],
             4⟩)],
          [("i/s/1", .solo .opened (.offset 3))], [], []⟩,
        successes := [⟨3, "i", "s", 1, some (.offset 3)⟩],
        failures := [],
        replicateSubrequests := [] } ∧
    persistLoopStep ⟨"self", ["f"], 2⟩ true
        (initialAcc ⟨[], [], [], []⟩)
        ⟨2, "b", "s", 1, some "f", some ⟨[[9]]⟩⟩ = .ok
      { st := ⟨[("b/s/1", ⟨[(0, [0, 0, 9]), (1, [0, 1])], 2⟩)],
          [("b/s/1", .primary "f" .opened (.offset 1))], [("f", 0)], []⟩,
        successes := [],
        failures := [],
        replicateSubrequests :=
          [("f", [⟨2, "b", "s", 1, some .beginning, some (.offset 1),
            some ⟨[[9]]⟩⟩])] } ∧
    ((("f" : NodeId),
      ReplicateRequest.subrequests ⟨"self", "f",
        [⟨2, "b", "s", 1, some .beginning, some (.offset 1), some ⟨[[9]]⟩⟩],
        .force, 0⟩) ∈
      [(("f" : NodeId),
        [(⟨2, "b", "s", 1, some .beginning, some (.offset 1),
          some ⟨[[9]]⟩⟩ : ReplicateSubrequest)])]) ∧
    ((⟨2, "b", "s", 1, some (.offset 1)⟩ : PersistSuccess) ∈
        ([] : List PersistSuccess) ∨
      ∃ fid req rsub,
        (fid, req) ∈ [(("f" : NodeId),
          (⟨"self", "f",
            [⟨2, "b", "s", 1, some .beginning, some (.offset 1),
              some ⟨[[9]]⟩⟩], .force, 0⟩ : ReplicateRequest))] ∧
        rsub ∈ req.subrequests ∧
        rsub.subrequestId =
          PersistSuccess.subrequestId ⟨2, "b", "s", 1, some (.offset 1)⟩ ∧
        PersistSuccess.replicationPositionInclusive
            ⟨2, "b", "s", 1, some (.offset 1)⟩ =
          rsub.toPositionInclusive) := by
  have hconf : ReplicateEnvConforming
      (fun _ req => Except.ok ⟨req.subrequests.map
        (fun rsub =>
          { subrequestId := rsub.subrequestId, indexUid := rsub.indexUid,
            sourceId := rsub.sourceId, shardId := rsub.shardId,
            replicationPositionInclusive := rsub.toPositionInclusive })⟩) := by
    intro fid req resp hok rs hrs
    injection hok with h
    subst h
    rcases List.mem_map.mp hrs with ⟨rsub, hmemb, hrseq⟩
    subst hrseq
    exact ⟨rsub, hmemb, rfl, rfl⟩
  refine ⟨?_, ?_, ?_, ?_⟩
  · rw [persist_subrequest_success_appends_docs_then_commit.1
      ⟨"self", [], 1⟩ true
      (initialAcc ⟨[("i/s/1", ⟨[(0, [0, 0, 9])], 1⟩)],
        [("i/s/1", .solo .opened (.offset 0))], [], []⟩)
      ⟨3, "i", "s", 1, none, some ⟨[[7], [8]]⟩⟩
      ⟨[[7], [8]]⟩ (.solo .opened (.offset 0)) ⟨[(0, [0, 0, 9])], 1⟩
      rfl (.inl rfl) (by decide) (by decide) (by decide)]
    rfl
  · rw [persist_subrequest_success_appends_docs_then_commit.2.1
      ⟨"self", ["f"], 2⟩ true (initialAcc ⟨[], [], [], []⟩)
      ⟨2, "b", "s", 1, some "f", some ⟨[[9]]⟩⟩ ⟨[[9]]⟩
      ⟨[("b/s/1", ⟨[], 0⟩)],
       [("b/s/1", .primary "f" .opened .beginning)], [("f", 0)], []⟩
      rfl (.inl rfl) (by decide) rfl]
    rfl
  · exact persist_subrequest_success_appends_docs_then_commit.2.2.1
      ⟨"self", ["f"], 2⟩ .force ⟨[], [], [("f", 0)], []⟩
      ⟨[], [], [("f", 1)], []⟩
      [("f", [⟨2, "b", "s", 1, some .beginning, some (.offset 1),
        some ⟨[[9]]⟩⟩])]
      [("f", ⟨"self", "f",
        [⟨2, "b", "s", 1, some .beginning, some (.offset 1), some ⟨[[9]]⟩⟩],
        .force, 0⟩)]
      rfl
      ("f", ⟨"self", "f",
        [⟨2, "b", "s", 1, some .beginning, some (.offset 1), some ⟨[[9]]⟩⟩],
        .force, 0⟩)
      (by decide)
  · exact persist_subrequest_success_appends_docs_then_commit.2.2.2
      (fun _ req => Except.ok ⟨req.subrequests.map
        (fun rsub =>
          { subrequestId := rsub.subrequestId, indexUid := rsub.indexUid,
            sourceId := rsub.sourceId, shardId := rsub.shardId,
            replicationPositionInclusive := rsub.toPositionInclusive })⟩)
      [("f", ⟨"self", "f",
        [⟨2, "b", "s", 1, some .beginning, some (.offset 1), some ⟨[[9]]⟩⟩],
        .force, 0⟩)]
      [] ⟨2, "b", "s", 1, some (.offset 1)⟩ hconf (by decide)

end Ingest

namespace Ingest

theorem mem_of_getLast?_eq {α : Type} {l : List α} {x : α}
    (h : l.getLast? = some x) : x ∈ l := by
  rcases List.getLast?_eq_some_iff.mp h with ⟨l', rfl⟩
  simp

/-- In a strictly sorted record list, filtering from the offset of the last
record keeps exactly that record. -/
theorem filter_ge_getLast {l : List (Nat × Bytes)} {x : Nat × Bytes}
    (hp : l.Pairwise (fun a b => a.1 < b.1)) (hl : l.getLast? = some x) :
    l.filter (fun r => x.1 ≤ r.1) = [x] := by
  induction l with
  | nil => cases hl
  | cons a t ih =>
    cases t with
    | nil =>
      simp only [List.getLast?_singleton, Option.some.injEq] at hl
      subst hl
      simp
    | cons b t' =>
      rw [List.getLast?_cons_cons] at hl
      have hmem : x ∈ b :: t' := mem_of_getLast?_eq hl
      have hax : a.1 < x.1 := (List.pairwise_cons.mp hp).1 x hmem
      have hfa : decide (x.1 ≤ a.1) = false := by
        simp only [decide_eq_false_iff_not]
        omega
      rw [List.filter_cons_of_neg, ih (List.pairwise_cons.mp hp).2 hl]
      simp only [decide_eq_true_eq]
      omega

/-- When `should_append_eof_record` is false, the queue already ends with an
`Eof` record. -/
theorem endsWithEof_of_shouldAppendEof_false {q : WalQueue}
    (hwf : WalQueueWF q) (hfalse : shouldAppendEof q = false) :
    endsWithEof q := by
  unfold shouldAppendEof at hfalse
  split at hfalse
  · cases hfalse
  · rename_i cp hcp
    split at hfalse
    · cases hfalse
    · rename_i r hrange
      have hreof : isEofMRecord r.2 = true := by
        cases h : isEofMRecord r.2 with
        | true => rfl
        | false => rw [h] at hfalse; cases hfalse
      have hrecne : q.records ≠ [] := by
        intro hnil
        rw [WalQueue.rangeFrom, hnil] at hrange
        cases hrange
      obtain ⟨x, hx⟩ : ∃ x, q.records.getLast? = some x := by
        cases h : q.records.getLast? with
        | none => exact absurd (List.getLast?_eq_none_iff.mp h) hrecne
        | some x => exact ⟨x, rfl⟩
      have hnext : x.1 + 1 = q.next := hwf.lastOffset x hx
      have hcpval : cp = x.1 := by
        unfold WalQueue.currentPosition at hcp
        by_cases h0 : q.next = 0
        · omega
        · rw [if_neg h0] at hcp
          injection hcp with hcp
          omega
      have hfilter : q.rangeFrom cp = [x] := by
        rw [WalQueue.rangeFrom, hcpval]
        exact filter_ge_getLast hwf.sorted hx
      rw [hfilter] at hrange
      simp only [List.getLast?_singleton, Option.some.injEq] at hrange
      subst hrange
      exact ⟨x, hx, hreof⟩

/-- A queue ending with an `Eof` record needs no further `Eof`:
`append_eof_record_if_necessary` leaves it unchanged. -/
theorem appendEofIfNecessary_of_endsWithEof {q : WalQueue}
    (hwf : WalQueueWF q) (he : endsWithEof q) :
    appendEofIfNecessary q = q := by
  obtain ⟨x, hx, hxeof⟩ := he
  have hnext : x.1 + 1 = q.next := hwf.lastOffset x hx
  have hcp : q.currentPosition = some (q.next - 1) := by
    unfold WalQueue.currentPosition
    rw [if_neg (by omega)]
  have hfilter : q.rangeFrom (q.next - 1) = [x] := by
    rw [WalQueue.rangeFrom]
    have hx1 : q.next - 1 = x.1 := by omega
    rw [hx1]
    exact filter_ge_getLast hwf.sorted hx
  have hshould : shouldAppendEof q = false := by
    simp only [shouldAppendEof, hcp, hfilter, List.getLast?_singleton, hxeof]
    rfl
  rw [appendEofIfNecessary, hshould]
  simp

theorem walQueueWF_appendOne {q : WalQueue} (b : Bytes) (hwf : WalQueueWF q) :
    WalQueueWF (q.appendOne b) := by
  refine ⟨?_, ?_, ?_⟩
  · rw [WalQueue.appendOne, List.pairwise_append]
    refine ⟨hwf.sorted, List.pairwise_singleton _ _, ?_⟩
    intro a ha y hy
    rw [List.mem_singleton] at hy
    subst hy
    exact hwf.bound a ha
  · intro r hr
    rw [WalQueue.appendOne] at hr
    show r.1 < q.next + 1
    rcases List.mem_append.mp hr with h | h
    · have := hwf.bound r h
      omega
    · rw [List.mem_singleton] at h
      subst h
      exact Nat.lt_succ_self q.next
  · intro r hr
    rw [WalQueue.appendOne] at hr ⊢
    rw [List.getLast?_concat] at hr
    injection hr with hr
    subst hr
    rfl

theorem walQueueWF_appendEofIfNecessary {q : WalQueue} (hwf : WalQueueWF q) :
    WalQueueWF (appendEofIfNecessary q) := by
  rw [appendEofIfNecessary]
  by_cases hs : shouldAppendEof q
  · rw [if_pos hs]
    exact walQueueWF_appendOne _ hwf
  · rw [if_neg hs]
    exact hwf

theorem endsWithEof_appendEofIfNecessary {q : WalQueue} (hwf : WalQueueWF q) :
    endsWithEof (appendEofIfNecessary q) := by
  rw [appendEofIfNecessary]
  by_cases hs : shouldAppendEof q
  · rw [if_pos hs]
    exact ⟨(q.next, MRecord.eof.encode),
      by rw [WalQueue.appendOne]; exact List.getLast?_concat _, rfl⟩
  · rw [if_neg hs]
    exact endsWithEof_of_shouldAppendEof_false hwf
      (Bool.not_eq_true _ ▸ eq_false_of_ne_true hs)

end Ingest

namespace Ingest

theorem alLookup_walAppendEof_ne (w : Wal) (qid qid' : QueueId)
    (h : qid ≠ qid') :
    alLookup (walAppendEofIfNecessary w qid) qid' = alLookup w qid' := by
  unfold walAppendEofIfNecessary
  cases hq : alLookup w qid with
  | none => rfl
  | some q => exact alLookup_alInsert_ne w qid qid' _ h

theorem alLookup_walAppendEof_self (w : Wal) (qid : QueueId) (q : WalQueue)
    (hq : alLookup w qid = some q) :
    alLookup (walAppendEofIfNecessary w qid) qid =
      some (appendEofIfNecessary q) := by
  unfold walAppendEofIfNecessary
  rw [hq]
  exact alLookup_alInsert_self w qid _

theorem alKeys_walAppendEof (w : Wal) (qid : QueueId) :
    alKeys (walAppendEofIfNecessary w qid) = alKeys w := by
  unfold walAppendEofIfNecessary
  cases hq : alLookup w qid with
  | none => rfl
  | some q =>
    exact alKeys_alInsert_of_contains w qid _ (by rw [hq]; rfl)

theorem init_foldl_mrecordlog_not_mem (l : List QueueId) (st : IngesterState)
    (qid : QueueId) (h : qid ∉ l) :
    alLookup (l.foldl initLoopStep st).mrecordlog qid =
      alLookup st.mrecordlog qid := by
  induction l generalizing st with
  | nil => rfl
  | cons a t ih =>
    have ha : a ≠ qid := fun he => h (he ▸ List.mem_cons_self a t)
    have ht : qid ∉ t := fun hm => h (List.mem_cons_of_mem a hm)
    rw [List.foldl_cons, ih _ ht]
    exact alLookup_walAppendEof_ne st.mrecordlog a qid ha

theorem init_foldl_shards_not_mem (l : List QueueId) (st : IngesterState)
    (qid : QueueId) (h : qid ∉ l) :
    alLookup (l.foldl initLoopStep st).shards qid =
      alLookup st.shards qid := by
  induction l generalizing st with
  | nil => rfl
  | cons a t ih =>
    have ha : a ≠ qid := fun he => h (he ▸ List.mem_cons_self a t)
    have ht : qid ∉ t := fun hm => h (List.mem_cons_of_mem a hm)
    rw [List.foldl_cons, ih _ ht]
    exact alLookup_alInsert_ne st.shards a qid _ ha

theorem init_foldl_mrecordlog_mem (l : List QueueId) (st : IngesterState)
    (qid : QueueId) (q : WalQueue) (hnd : l.Nodup) (hmem : qid ∈ l)
    (hq : alLookup st.mrecordlog qid = some q) :
    alLookup (l.foldl initLoopStep st).mrecordlog qid =
      some (appendEofIfNecessary q) := by
  induction l generalizing st with
  | nil => cases hmem
  | cons a t ih =>
    rw [List.foldl_cons]
    by_cases hqa : a = qid
    · subst hqa
      have hat : a ∉ t := (List.nodup_cons.mp hnd).1
      rw [init_foldl_mrecordlog_not_mem t _ a hat]
      exact alLookup_walAppendEof_self st.mrecordlog a q hq
    · have hmem' : qid ∈ t := by
        rcases List.mem_cons.mp hmem with h | h
        · exact absurd h.symm hqa
        · exact h
      refine ih _ (List.nodup_cons.mp hnd).2 hmem' ?_
      rw [show (initLoopStep st a).mrecordlog =
        walAppendEofIfNecessary st.mrecordlog a from rfl]
      rw [alLookup_walAppendEof_ne st.mrecordlog a qid hqa]
      exact hq

theorem init_foldl_shards_mem (l : List QueueId) (st : IngesterState)
    (qid : QueueId) (hnd : l.Nodup) (hmem : qid ∈ l) :
    alLookup (l.foldl initLoopStep st).shards qid =
      some (.solo .closed .eof) := by
  induction l generalizing st with
  | nil => cases hmem
  | cons a t ih =>
    rw [List.foldl_cons]
    by_cases hqa : a = qid
    · subst hqa
      have hat : a ∉ t := (List.nodup_cons.mp hnd).1
      rw [init_foldl_shards_not_mem t _ a hat]
      exact alLookup_alInsert_self st.shards a _
    · have hmem' : qid ∈ t := by
        rcases List.mem_cons.mp hmem with h | h
        · exact absurd h.symm hqa
        · exact h
      exact ih _ (List.nodup_cons.mp hnd).2 hmem'

theorem init_foldl_alKeys (l : List QueueId) (st : IngesterState) :
    alKeys (l.foldl initLoopStep st).mrecordlog = alKeys st.mrecordlog := by
  induction l generalizing st with
  | nil => rfl
  | cons a t ih =>
    rw [List.foldl_cons, ih]
    exact alKeys_walAppendEof st.mrecordlog a

theorem foldl_eq_of_fixed {β : Type} (l : List β)
    (f : IngesterState → β → IngesterState) (st : IngesterState)
    (h : ∀ x ∈ l, f st x = st) : l.foldl f st = st := by
  induction l with
  | nil => rfl
  | cons a t ih =>
    rw [List.foldl_cons, h a (List.mem_cons_self a t)]
    exact ih (fun x hx => h x (List.mem_cons_of_mem a hx))

/-- C7: after `init`, every WAL queue that existed at startup has a `Solo`
shard in state `Closed` with replication position `Eof` in the shard
table. -/
theorem init_inserts_closed_solo_shards (st : IngesterState)
    (hnd : (alKeys st.mrecordlog).Nodup) :
    ∀ qid ∈ Wal.listQueues st.mrecordlog,
      alLookup (initIngester st).shards qid =
        some (.solo .closed .eof) := by
  intro qid hmem
  exact init_foldl_shards_mem _ st qid hnd hmem

theorem init_inserts_closed_solo_shards_witness :
    (alKeys (IngesterState.mrecordlog
      ⟨[("q1", ⟨[(0, [0, 0, 5])], 1⟩), ("q2", ⟨[], 0⟩)], [], [], []⟩)).Nodup ∧
    ("q2" : QueueId) ∈ Wal.listQueues (IngesterState.mrecordlog
      ⟨[("q1", ⟨[(0, [0, 0, 5])], 1⟩), ("q2", ⟨[], 0⟩)], [], [], []⟩) ∧
    alLookup (initIngester
        ⟨[("q1", ⟨[(0, [0, 0, 5])], 1⟩), ("q2", ⟨[], 0⟩)], [], [], []⟩).shards
      "q2" = some (.solo .closed .eof) :=
  ⟨by decide, by decide,
    init_inserts_closed_solo_shards
      ⟨[("q1", ⟨[(0, [0, 0, 5])], 1⟩), ("q2", ⟨[], 0⟩)], [], [], []⟩
      (by decide) "q2" (by decide)⟩

end Ingest

namespace Ingest

/-- Convenience introduction rule for `WalQueueWF` whose last condition is
stated as a decidable check on the optional last record. -/
theorem walQueueWF_of_checks (q : WalQueue)
    (h1 : q.records.Pairwise (fun a b => a.1 < b.1))
    (h2 : ∀ r ∈ q.records, r.1 < q.next)
    (h3 : match q.records.getLast? with
      | none => True
      | some r => r.1 + 1 = q.next) :
    WalQueueWF q :=
  ⟨h1, h2, by intro r hr; rw [hr] at h3; exact h3⟩

/-- C3: after `init`, every WAL queue that existed at startup ends with an
`Eof` record (one was appended when the queue was empty or did not already
end with one), and running `init` a second time is the identity — in
particular it appends no further record to any queue. -/
theorem init_seals_queues_and_reinit_is_noop (st : IngesterState)
    (hnd : (alKeys st.mrecordlog).Nodup)
    (hwf : ∀ qid q, alLookup st.mrecordlog qid = some q → WalQueueWF q) :
    (∀ qid ∈ Wal.listQueues st.mrecordlog,
      ∃ q, alLookup (initIngester st).mrecordlog qid = some q ∧
        endsWithEof q) ∧
    initIngester (initIngester st) = initIngester st := by
  constructor
  · intro qid hmem
    obtain ⟨q0, hq0⟩ := Option.isSome_iff_exists.mp
      (alLookup_isSome_of_mem_alKeys st.mrecordlog qid hmem)
    exact ⟨appendEofIfNecessary q0,
      init_foldl_mrecordlog_mem _ st qid q0 hnd hmem hq0,
      endsWithEof_appendEofIfNecessary (hwf qid q0 hq0)⟩
  · have hkeys : Wal.listQueues (initIngester st).mrecordlog =
        Wal.listQueues st.mrecordlog :=
      init_foldl_alKeys _ st
    rw [initIngester, hkeys]
    apply foldl_eq_of_fixed
    intro qid hmem
    obtain ⟨q0, hq0⟩ := Option.isSome_iff_exists.mp
      (alLookup_isSome_of_mem_alKeys st.mrecordlog qid hmem)
    have h1 : alLookup (initIngester st).mrecordlog qid =
        some (appendEofIfNecessary q0) :=
      init_foldl_mrecordlog_mem _ st qid q0 hnd hmem hq0
    have hwf1 : WalQueueWF (appendEofIfNecessary q0) :=
      walQueueWF_appendEofIfNecessary (hwf qid q0 hq0)
    have hends : endsWithEof (appendEofIfNecessary q0) :=
      endsWithEof_appendEofIfNecessary (hwf qid q0 hq0)
    have h2 : appendEofIfNecessary (appendEofIfNecessary q0) =
        appendEofIfNecessary q0 :=
      appendEofIfNecessary_of_endsWithEof hwf1 hends
    have h3 : walAppendEofIfNecessary (initIngester st).mrecordlog qid =
        (initIngester st).mrecordlog := by
      unfold walAppendEofIfNecessary
      rw [h1]
      show alInsert (initIngester st).mrecordlog qid
        (appendEofIfNecessary (appendEofIfNecessary q0)) =
        (initIngester st).mrecordlog
      rw [h2]
      exact alInsert_self_eq _ _ _ h1
    have h4 : alInsert (initIngester st).shards qid
        (IngesterShard.solo .closed .eof) = (initIngester st).shards :=
      alInsert_self_eq _ _ _ (init_foldl_shards_mem _ st qid hnd hmem)
    show initLoopStep (initIngester st) qid = initIngester st
    unfold initLoopStep
    rw [h3, h4]

theorem init_seals_queues_and_reinit_is_noop_witness :
    (alKeys (IngesterState.mrecordlog
      ⟨[("q1", ⟨[(0, [0, 0, 5])], 1⟩)], [], [], []⟩)).Nodup ∧
    ("q1" : QueueId) ∈ Wal.listQueues (IngesterState.mrecordlog
      ⟨[("q1", ⟨[(0, [0, 0, 5])], 1⟩)], [], [], []⟩) ∧
    (∃ q, alLookup (initIngester
        ⟨[("q1", ⟨[(0, [0, 0, 5])], 1⟩)], [], [], []⟩).mrecordlog "q1" =
        some q ∧ endsWithEof q) ∧
    initIngester (initIngester ⟨[("q1", ⟨[(0, [0, 0, 5])], 1⟩)], [], [], []⟩) =
      initIngester ⟨[("q1", ⟨[(0, [0, 0, 5])], 1⟩)], [], [], []⟩ := by
  have hwf : ∀ qid q,
      alLookup (IngesterState.mrecordlog
        ⟨[("q1", ⟨[(0, [0, 0, 5])], 1⟩)], [], [], []⟩) qid = some q →
      WalQueueWF q := by
    intro qid q hq
    simp only [alLookup] at hq
    split at hq
    · injection hq with hq
      subst hq
      exact walQueueWF_of_checks _ (by decide) (by decide) (by exact rfl)
    · cases hq
  have h := init_seals_queues_and_reinit_is_noop
    ⟨[("q1", ⟨[(0, [0, 0, 5])], 1⟩)], [], [], []⟩ (by decide) hwf
  exact ⟨by decide, by decide, h.1 "q1" (by decide), h.2⟩

end Ingest
